import Mathlib

/-!
# E.V.S backend (src/evs-backend/server.js): shallow embedding

The server exposes four endpoints backed by a PostgreSQL database:

* `POST /register` — inserts a row into `users (national_id PRIMARY KEY, password_hash)`
  after an existence check, hashing the password with bcrypt;
* `POST /login` — looks the user up, compares the password with bcrypt, then
  checks the `votes` table and refuses login with 403 when a vote already exists;
* `POST /vote` — checks the `votes` table for the user id and inserts
  `(user_id, candidate_name)`; `votes.user_id` is a PRIMARY KEY, so a lost
  check-then-insert race surfaces as a constraint violation caught by the
  generic handler (HTTP 500);
* `GET /results` — `SELECT candidate_name, COUNT(*) ... GROUP BY candidate_name
  ORDER BY vote_count DESC` with no secondary sort key.

Tables are modelled as lists of rows in insertion order.  bcrypt hashing is
nondeterministic (salted), so a stored hash is modelled as an object from which
bcrypt compare can recover a match with the original password but nothing else.
Request body fields are `Option String`; the JavaScript falsy test `!x` holds
for a missing field and for the empty string.
-/

namespace EVS

/-- HTTP response produced by an endpoint: status code, `success` flag,
message, and the optional `userId` field that `/login` adds on success. -/
structure Response where
  status : Nat
  success : Bool
  message : String
  userId : Option String := none
deriving DecidableEq, Repr

/-- A bcrypt hash as stored in `users.password_hash`: bcrypt salts the hash,
so the only observable property is which password it was derived from and
with which cost (`saltRounds`). -/
structure BcryptHash where
  ofPassword : String
  saltRounds : Nat
deriving DecidableEq, Repr

/-- `bcrypt.hash(password, saltRounds)` (server.js line 64). -/
def bcryptHashFn (password : String) (saltRounds : Nat) : BcryptHash :=
  ⟨password, saltRounds⟩

/-- `bcrypt.compare(password, hash)` (server.js line 99): true exactly when
`password` is the password the hash was derived from. -/
def bcryptCompare (password : String) (h : BcryptHash) : Bool :=
  password == h.ofPassword

/-- A row of the `users` table (server.js lines 160-165). -/
structure UserRow where
  national_id : String
  password_hash : BcryptHash
deriving DecidableEq, Repr

/-- A row of the `votes` table (server.js lines 166-172); the timestamp
column is defaulted by the database and never read, so it is omitted. -/
structure VoteRow where
  user_id : String
  candidate_name : String
deriving DecidableEq, Repr

/-- Database state: the two tables, as lists of rows in insertion order. -/
structure DB where
  users : List UserRow
  votes : List VoteRow
deriving DecidableEq, Repr

/-- Fresh database right after `createTables` (server.js lines 159-180). -/
def emptyDB : DB := ⟨[], []⟩

/-- JavaScript falsy test `!x` on a request body field: true for a missing
field and for the empty string. -/
def falsy : Option String → Bool
  | none => true
  | some s => s.isEmpty

/-- `SELECT national_id FROM users WHERE national_id = $1` (line 55),
as the list of matching rows. -/
def usersWhere (users : List UserRow) (nid : String) : List UserRow :=
  users.filter (fun u => u.national_id == nid)

/-- `SELECT user_id FROM votes WHERE user_id = $1` (lines 103 and 135),
as the list of matching rows. -/
def votesWhere (votes : List VoteRow) (uid : String) : List VoteRow :=
  votes.filter (fun v => v.user_id == uid)

/-- The `rows.length > 0` test applied to the vote lookup (lines 106, 138). -/
def voteExists (votes : List VoteRow) (uid : String) : Bool :=
  (votesWhere votes uid).length != 0

/-- The `rows.length > 0` test applied to the user lookup (line 58). -/
def userExists (users : List UserRow) (nid : String) : Bool :=
  (usersWhere users nid).length != 0

/-- The 400 response of `/vote` validation (server.js line 129). -/
def voteMissing400 : Response :=
  ⟨400, false, "User ID (National ID) and candidate are required.", none⟩

/-- The 409 response of the already-voted check (server.js line 139). -/
def alreadyVoted409 : Response :=
  ⟨409, false, "You have already voted.", none⟩

/-- The 500 response of the `/vote` catch block (server.js line 149). -/
def voteFault500 : Response :=
  ⟨500, false, "An unexpected error occurred while submitting the vote.", none⟩

/-- The 200 response of a successful vote (server.js line 146). -/
def voteOk200 (cand : String) : Response :=
  ⟨200, true, "Vote for " ++ cand ++ " submitted successfully!", none⟩

/-- The 400 response shared by `/register` and `/login` validation
(server.js lines 50 and 85). -/
def missingCreds400 : Response :=
  ⟨400, false, "National ID and password are required.", none⟩

/-- The 409 response of `/register` for an existing identity (line 59). -/
def regConflict409 : Response :=
  ⟨409, false, "National ID already registered.", none⟩

/-- The 201 response of a successful registration (line 70). -/
def regOk201 : Response :=
  ⟨201, true, "Registration successful. You can now log in.", none⟩

/-- The 401 response of `/login`, shared verbatim by the unknown-identity
branch (line 94) and the wrong-password branch (line 112). -/
def invalidCreds401 : Response :=
  ⟨401, false, "Invalid National ID or password.", none⟩

/-- The 403 response of `/login` when a vote already exists (line 107). -/
def loginAlreadyVoted403 : Response :=
  ⟨403, false, "You have already voted.", none⟩

/-- The 200 response of a successful login (line 110). -/
def loginOk200 (uid : String) : Response :=
  ⟨200, true, "Login successful!", some uid⟩

/-- `POST /register` (server.js lines 45-75): validate, check existence,
hash with cost 10, insert. -/
def registerHandler (db : DB) (nationalId password : Option String) :
    DB × Response :=
  if falsy nationalId || falsy password then
    (db, missingCreds400)
  else
    let nid := nationalId.getD ""
    let pw := password.getD ""
    if userExists db.users nid then
      (db, regConflict409)
    else
      ({ db with users := db.users ++ [⟨nid, bcryptHashFn pw 10⟩] }, regOk201)

/-- `POST /login` (server.js lines 81-118): validate, look the user up
(`rows[0]` of the `SELECT`), bcrypt-compare, then refuse with 403 when a
vote already exists, else succeed returning the national id as `userId`. -/
def loginHandler (db : DB) (nationalId password : Option String) :
    DB × Response :=
  if falsy nationalId || falsy password then
    (db, missingCreds400)
  else
    let nid := nationalId.getD ""
    let pw := password.getD ""
    match (usersWhere db.users nid).head? with
    | none => (db, invalidCreds401)
    | some user =>
      if bcryptCompare pw user.password_hash then
        if voteExists db.votes nid then
          (db, loginAlreadyVoted403)
        else
          (db, loginOk200 user.national_id)
      else
        (db, invalidCreds401)

/-- `POST /vote` (server.js lines 125-151): validate, check the `votes`
table, insert.  (The sequential semantics; the interleaved semantics is
`stepCall`/`stepWorld` below.) -/
def voteHandler (db : DB) (userId candidate : Option String) :
    DB × Response :=
  if falsy userId || falsy candidate then
    (db, voteMissing400)
  else
    let uid := userId.getD ""
    let cand := candidate.getD ""
    if voteExists db.votes uid then
      (db, alreadyVoted409)
    else
      ({ db with votes := db.votes ++ [⟨uid, cand⟩] }, voteOk200 cand)

/-- `COUNT(*)` of the votes for one candidate (line 193). -/
def voteCountFor (votes : List VoteRow) (cand : String) : Nat :=
  (votes.filter (fun v => v.candidate_name == cand)).length

/-- Number of ledger rows keyed by a given voter identity. -/
def rowsFor (votes : List VoteRow) (uid : String) : Nat :=
  (votesWhere votes uid).length

/-- The distinct candidates appearing in the ledger (the groups produced by
`GROUP BY candidate_name`). -/
def candidatesOf (votes : List VoteRow) : List String :=
  (votes.map VoteRow.candidate_name).dedup

/-- `GET /results` (server.js lines 190-199) as a relation: the query is
`GROUP BY candidate_name ORDER BY vote_count DESC` with no secondary sort
key, so any output listing each distinct candidate exactly once with its
count, in an order weakly decreasing by count, is an admissible result set;
PostgreSQL does not specify the relative order of rows with equal counts. -/
def resultsAdmissible (votes : List VoteRow) (out : List (String × Nat)) :
    Prop :=
  (out.map Prod.fst).Perm (candidatesOf votes) ∧
  (∀ p ∈ out, p.2 = voteCountFor votes p.1) ∧
  out.Sorted (fun a b => b.2 ≤ a.2)

/-!
## Interleaved semantics of `POST /vote`

The handler performs two separate database statements: the `SELECT` on the
`votes` table and the `INSERT` (server.js lines 135-144).  Each statement is
atomic at the database, but another request may run between them.  Because
`votes.user_id` is a PRIMARY KEY (line 168), an `INSERT` for a key already
present throws; the `catch` block turns that into the generic 500 response
(lines 147-150).  A request is therefore a two-step program: `start`
(validation plus the `SELECT`) and `checked` (the `INSERT`); a schedule is a
list of request indices, each entry running the named request's next step.
-/

/-- Progress of one in-flight `POST /vote` request. -/
inductive Phase where
  | start
  | checked
  | done (r : Response)
deriving DecidableEq, Repr

/-- One in-flight `POST /vote` request: its body fields and its progress. -/
structure VoteCall where
  uid : String
  cand : String
  phase : Phase
deriving DecidableEq, Repr

/-- Shared state: the `votes` table plus the in-flight requests. -/
structure World where
  votes : List VoteRow
  calls : List VoteCall
deriving DecidableEq, Repr

/-- Run the next step of one request against the `votes` table. -/
def stepCall (votes : List VoteRow) (c : VoteCall) :
    List VoteRow × VoteCall :=
  match c.phase with
  | .start =>
    if c.uid.isEmpty || c.cand.isEmpty then
      (votes, { c with phase := .done voteMissing400 })
    else if voteExists votes c.uid then
      (votes, { c with phase := .done alreadyVoted409 })
    else
      (votes, { c with phase := .checked })
  | .checked =>
    if voteExists votes c.uid then
      (votes, { c with phase := .done voteFault500 })
    else
      (votes ++ [⟨c.uid, c.cand⟩], { c with phase := .done (voteOk200 c.cand) })
  | .done _ => (votes, c)

/-- Run the next step of the request at index `i` (no-op on a bad index). -/
def stepWorld (w : World) (i : Nat) : World :=
  match w.calls[i]? with
  | none => w
  | some c =>
    let vc := stepCall w.votes c
    ⟨vc.1, w.calls.set i vc.2⟩

/-- Run a schedule: each entry advances the named request by one step. -/
def runSched (w : World) (sched : List Nat) : World :=
  sched.foldl stepWorld w

/-- Initial world for N concurrent `/vote` requests by the same voter `uid`,
one per candidate in `cands`, over an initial ledger `v0`. -/
def initialWorld (uid : String) (v0 : List VoteRow) (cands : List String) :
    World :=
  ⟨v0, cands.map (fun cd => ⟨uid, cd, Phase.start⟩)⟩

/-- A request that has finished with a 200 response. -/
def isSuccess (c : VoteCall) : Bool :=
  match c.phase with
  | .done r => r.status == 200
  | _ => false

/-- Number of finished-successfully requests. -/
def numSuccess (cs : List VoteCall) : Nat :=
  (cs.filter isSuccess).length

/-- Every request has finished. -/
def allDone (cs : List VoteCall) : Bool :=
  cs.all (fun c => match c.phase with | .done _ => true | _ => false)

/-!
## Sequential operation sequences

For properties over arbitrary sequences of endpoint invocations, an
operation is one HTTP request with its body fields; `GET /results` reads
but never writes. -/

/-- One endpoint invocation with its request body. -/
inductive Op where
  | register (nationalId password : Option String)
  | login (nationalId password : Option String)
  | castVote (userId candidate : Option String)
  | tally
deriving DecidableEq, Repr

/-- State transition of one sequential request (`GET /results` only reads). -/
def applyOp (db : DB) : Op → DB
  | .register n p => (registerHandler db n p).1
  | .login n p => (loginHandler db n p).1
  | .castVote u c => (voteHandler db u c).1
  | .tally => db

/-- Run a sequence of requests from the freshly created tables. -/
def runOps (ops : List Op) : DB :=
  ops.foldl applyOp emptyDB

/-- The ledger holds at most one row per voter identity: its `user_id`
column has no duplicates (the property the PRIMARY KEY on `votes.user_id`
maintains). -/
def keyNodup (votes : List VoteRow) : Prop :=
  (votes.map VoteRow.user_id).Nodup

/-- A ledger with votes {A, A, B, C, A} by five distinct voters. -/
def demoVotes : List VoteRow :=
  [⟨"v1", "A"⟩, ⟨"v2", "A"⟩, ⟨"v3", "B"⟩, ⟨"v4", "C"⟩, ⟨"v5", "A"⟩]

/-- Invariant of the interleaved `/vote` semantics for one voter identity
`uid`: every in-flight request carries `uid` and a non-empty candidate, the
number of ledger rows for `uid` equals the number of 200 outcomes and never
exceeds one, and every finished request saw 200, or saw 409/500 only while
a row for `uid` exists. -/
def VoteInv (uid : String) (w : World) : Prop :=
  uid ≠ "" ∧
  (∀ c ∈ w.calls, c.uid = uid ∧ c.cand ≠ "") ∧
  rowsFor w.votes uid = numSuccess w.calls ∧
  rowsFor w.votes uid ≤ 1 ∧
  (∀ c ∈ w.calls, ∀ r, c.phase = Phase.done r →
    r = voteOk200 c.cand ∨
    ((r = alreadyVoted409 ∨ r = voteFault500) ∧ voteExists w.votes uid = true))

/-!
## Basic lemmas
-/

theorem falsy_some_eq_false {s : String} (h : s ≠ "") : falsy (some s) = false := by
  have hq : s.isEmpty = false := by
    rcases Bool.eq_false_or_eq_true s.isEmpty with hb | hb
    · exact absurd ((String.isEmpty_iff s).mp hb) h
    · exact hb
  simpa [falsy] using hq

theorem rowsFor_append (vs l : List VoteRow) (uid : String) :
    rowsFor (vs ++ l) uid = rowsFor vs uid + rowsFor l uid := by
  simp [rowsFor, votesWhere, List.filter_append]

theorem voteExists_eq_false_iff (vs : List VoteRow) (uid : String) :
    voteExists vs uid = false ↔ rowsFor vs uid = 0 := by
  simp [voteExists, rowsFor, bne]

theorem voteExists_eq_true_iff (vs : List VoteRow) (uid : String) :
    voteExists vs uid = true ↔ rowsFor vs uid ≠ 0 := by
  simp [voteExists, rowsFor, bne]

theorem userExists_eq_false_iff (us : List UserRow) (nid : String) :
    userExists us nid = false ↔ usersWhere us nid = [] := by
  simp [userExists, bne, List.length_eq_zero]

/-!
## C3, C4, C5, C6, C8, C9, C10: single-request behaviour
-/

/-- C3: when the ledger already holds a row for the voter, a sequential
`/vote` request answers with the 409 already-voted response, leaves the
database unchanged, and that response is distinct from the 500
storage-fault response of the catch block. -/
theorem C3_already_voted_is_conflict_not_fault (db : DB) (u c : String)
    (hu : u ≠ "") (hc : c ≠ "") (h : voteExists db.votes u = true) :
    voteHandler db (some u) (some c) = (db, alreadyVoted409) ∧
    alreadyVoted409.status = 409 ∧ alreadyVoted409 ≠ voteFault500 := by
  refine ⟨?_, rfl, by decide⟩
  simp [voteHandler, falsy_some_eq_false hu, falsy_some_eq_false hc, h]

/-- C3 witness at a concrete database. -/
theorem C3_already_voted_witness :
    voteHandler ⟨[], [⟨"V1", "A"⟩]⟩ (some "V1") (some "B")
        = (⟨[], [⟨"V1", "A"⟩]⟩, alreadyVoted409) ∧
    alreadyVoted409.status = 409 ∧ alreadyVoted409 ≠ voteFault500 :=
  C3_already_voted_is_conflict_not_fault ⟨[], [⟨"V1", "A"⟩]⟩ "V1" "B"
    (by decide) (by decide) (by decide)

/-- C4: registering a fresh identity succeeds with 201 and stores the
bcrypt hash of the first secret; a second registration of the same
identity answers 409 regardless of the second secret and changes nothing,
so exactly one user row for the identity remains, carrying the hash
derived from the first secret. -/
theorem C4_register_then_reregister (db : DB) (I s1 s2 : String)
    (hI : I ≠ "") (h1 : s1 ≠ "") (h2 : s2 ≠ "")
    (habs : userExists db.users I = false) :
    (registerHandler db (some I) (some s1)).2 = regOk201 ∧
    registerHandler (registerHandler db (some I) (some s1)).1 (some I) (some s2)
        = ((registerHandler db (some I) (some s1)).1, regConflict409) ∧
    usersWhere (registerHandler db (some I) (some s1)).1.users I
        = [⟨I, bcryptHashFn s1 10⟩] := by
  have hempty : usersWhere db.users I = [] := (userExists_eq_false_iff _ _).mp habs
  have hstep : registerHandler db (some I) (some s1)
      = ({ db with users := db.users ++ [⟨I, bcryptHashFn s1 10⟩] }, regOk201) := by
    simp [registerHandler, falsy_some_eq_false hI, falsy_some_eq_false h1, habs]
  have hwhere : usersWhere (db.users ++ [⟨I, bcryptHashFn s1 10⟩]) I
      = [⟨I, bcryptHashFn s1 10⟩] := by
    rw [usersWhere] at hempty ⊢
    rw [List.filter_append, hempty]
    simp
  refine ⟨by rw [hstep], ?_, by rw [hstep]; exact hwhere⟩
  rw [hstep]
  have hex : userExists (db.users ++ [⟨I, bcryptHashFn s1 10⟩]) I = true := by
    rw [userExists, hwhere]
    rfl
  simp [registerHandler, falsy_some_eq_false hI, falsy_some_eq_false h2, hex]

/-- C4 witness at a concrete database. -/
theorem C4_register_witness :
    (registerHandler emptyDB (some "V1") (some "s1")).2 = regOk201 ∧
    registerHandler (registerHandler emptyDB (some "V1") (some "s1")).1
        (some "V1") (some "s2")
        = ((registerHandler emptyDB (some "V1") (some "s1")).1, regConflict409) ∧
    usersWhere (registerHandler emptyDB (some "V1") (some "s1")).1.users "V1"
        = [⟨"V1", bcryptHashFn "s1" 10⟩] :=
  C4_register_then_reregister emptyDB "V1" "s1" "s2"
    (by decide) (by decide) (by decide) (by decide)

/-- C5: a login for an identity with no user row and a login for an
existing identity with a non-matching password produce the very same 401
response, status and message included. -/
theorem C5_auth_secrecy (db : DB) (id1 p1 id2 p2 : String)
    (hi1 : id1 ≠ "") (hp1 : p1 ≠ "") (hi2 : id2 ≠ "") (hp2 : p2 ≠ "")
    (hmiss : usersWhere db.users id1 = [])
    (u : UserRow) (hhit : (usersWhere db.users id2).head? = some u)
    (hwrong : bcryptCompare p2 u.password_hash = false) :
    loginHandler db (some id1) (some p1) = (db, invalidCreds401) ∧
    loginHandler db (some id2) (some p2) = (db, invalidCreds401) ∧
    (loginHandler db (some id1) (some p1)).2
      = (loginHandler db (some id2) (some p2)).2 := by
  have ha : loginHandler db (some id1) (some p1) = (db, invalidCreds401) := by
    simp [loginHandler, falsy_some_eq_false hi1, falsy_some_eq_false hp1, hmiss]
  have hb : loginHandler db (some id2) (some p2) = (db, invalidCreds401) := by
    simp [loginHandler, falsy_some_eq_false hi2, falsy_some_eq_false hp2, hhit, hwrong]
  exact ⟨ha, hb, by rw [ha, hb]⟩

/-- C5 witness at a concrete database. -/
theorem C5_auth_secrecy_witness :
    loginHandler ⟨[⟨"V1", bcryptHashFn "pw" 10⟩], []⟩ (some "V2") (some "x")
        = (⟨[⟨"V1", bcryptHashFn "pw" 10⟩], []⟩, invalidCreds401) ∧
    loginHandler ⟨[⟨"V1", bcryptHashFn "pw" 10⟩], []⟩ (some "V1") (some "wrong")
        = (⟨[⟨"V1", bcryptHashFn "pw" 10⟩], []⟩, invalidCreds401) ∧
    (loginHandler ⟨[⟨"V1", bcryptHashFn "pw" 10⟩], []⟩ (some "V2") (some "x")).2
      = (loginHandler ⟨[⟨"V1", bcryptHashFn "pw" 10⟩], []⟩ (some "V1") (some "wrong")).2 :=
  C5_auth_secrecy ⟨[⟨"V1", bcryptHashFn "pw" 10⟩], []⟩ "V2" "x" "V1" "wrong"
    (by decide) (by decide) (by decide) (by decide) (by decide)
    ⟨"V1", bcryptHashFn "pw" 10⟩ (by decide) (by decide)

/-- C6 counterexample: a registered voter who has already voted presents
the matching secret, yet `/login` fails with 403 instead of succeeding
with an already-voted flag. -/
theorem C6_counterexample_login_rejected_after_voting :
    (loginHandler ⟨[⟨"V1", bcryptHashFn "pw" 10⟩], [⟨"V1", "A"⟩]⟩
        (some "V1") (some "pw")).2 = loginAlreadyVoted403 ∧
    loginAlreadyVoted403.success = false ∧ loginAlreadyVoted403.status = 403 :=
  ⟨rfl, rfl, rfl⟩

/-- C6 amended: for a registered voter with the matching secret, `/login`
succeeds (200, `userId` = the identity) only when no vote row exists;
when the voter has already voted it fails with the 403 already-voted
response — the already-voted check is an enforcement point of `/login`,
and no `alreadyVoted` flag is returned. -/
theorem C6_amended_login_behaviour (db : DB) (nid pw : String)
    (hn : nid ≠ "") (hp : pw ≠ "")
    (u : UserRow) (hf : (usersWhere db.users nid).head? = some u)
    (hm : bcryptCompare pw u.password_hash = true) :
    loginHandler db (some nid) (some pw)
      = (db, if voteExists db.votes nid then loginAlreadyVoted403
             else loginOk200 u.national_id) := by
  by_cases hv : voteExists db.votes nid = true
  · simp [loginHandler, falsy_some_eq_false hn, falsy_some_eq_false hp, hf, hm, hv]
  · simp at hv
    simp [loginHandler, falsy_some_eq_false hn, falsy_some_eq_false hp, hf, hm, hv]

/-- C6 amended witness at a concrete database. -/
theorem C6_amended_login_witness :
    loginHandler ⟨[⟨"V1", bcryptHashFn "pw" 10⟩], []⟩ (some "V1") (some "pw")
      = (⟨[⟨"V1", bcryptHashFn "pw" 10⟩], []⟩,
         if voteExists ([] : List VoteRow) "V1" then loginAlreadyVoted403
         else loginOk200 "V1") :=
  C6_amended_login_behaviour ⟨[⟨"V1", bcryptHashFn "pw" 10⟩], []⟩ "V1" "pw"
    (by decide) (by decide) ⟨"V1", bcryptHashFn "pw" 10⟩ (by decide) (by decide)

/-- C8 counterexample: with an empty `users` table, a `/vote` request for
an unregistered identity succeeds and creates a ledger row that references
no user row. -/
theorem C8_counterexample_unregistered_identity_votes :
    emptyDB.users = [] ∧
    (voteHandler emptyDB (some "ghost") (some "A")).2 = voteOk200 "A" ∧
    (voteHandler emptyDB (some "ghost") (some "A")).1.votes = [⟨"ghost", "A"⟩] ∧
    usersWhere (voteHandler emptyDB (some "ghost") (some "A")).1.users "ghost" = [] :=
  ⟨rfl, rfl, rfl, rfl⟩

/-- C8 amended: `/vote` consults only the `votes` table and `createTables`
declares no foreign key, so for any state of the `users` table — including
one with no row for the voter — a non-empty identity with no ledger row is
admitted and a ledger row is created. -/
theorem C8_amended_vote_ignores_users_table (us : List UserRow)
    (vs : List VoteRow) (u c : String)
    (hu : u ≠ "") (hc : c ≠ "") (habs : voteExists vs u = false) :
    voteHandler ⟨us, vs⟩ (some u) (some c) = (⟨us, vs ++ [⟨u, c⟩]⟩, voteOk200 c) := by
  simp [voteHandler, falsy_some_eq_false hu, falsy_some_eq_false hc, habs]

/-- C8 amended witness at a concrete database. -/
theorem C8_amended_vote_witness :
    voteHandler ⟨[], []⟩ (some "ghost") (some "A")
      = (⟨[], [⟨"ghost", "A"⟩]⟩, voteOk200 "A") := by
  have h := C8_amended_vote_ignores_users_table [] [] "ghost" "A"
    (by decide) (by decide) (by decide)
  simpa using h

/-- C9: a `/register` or `/vote` request with a missing or empty field is
answered with the corresponding 400 response and the database is returned
unchanged — no row is written to either table. -/
theorem C9_missing_fields_rejected_before_write (db : DB) (a b : Option String)
    (h : falsy a = true ∨ falsy b = true) :
    registerHandler db a b = (db, missingCreds400) ∧
    voteHandler db a b = (db, voteMissing400) := by
  rcases h with h | h <;> constructor <;>
    simp [registerHandler, voteHandler, h]

/-- C9 witness at a concrete request with a missing field. -/
theorem C9_missing_fields_witness :
    registerHandler emptyDB none (some "pw") = (emptyDB, missingCreds400) ∧
    voteHandler emptyDB none (some "pw") = (emptyDB, voteMissing400) :=
  C9_missing_fields_rejected_before_write emptyDB none (some "pw") (Or.inl rfl)

/-- C10: a successful `/vote` for a fresh voter appends exactly the row
`(u, c)` with the submitted candidate string stored verbatim; the tally
count of `c` grows by one and every other candidate's count is unchanged. -/
theorem C10_success_increments_tally (db : DB) (u c : String)
    (hu : u ≠ "") (hc : c ≠ "") (habs : voteExists db.votes u = false) :
    (voteHandler db (some u) (some c)).2 = voteOk200 c ∧
    (voteHandler db (some u) (some c)).1.votes = db.votes ++ [⟨u, c⟩] ∧
    voteCountFor (voteHandler db (some u) (some c)).1.votes c
      = voteCountFor db.votes c + 1 ∧
    ∀ d, d ≠ c → voteCountFor (voteHandler db (some u) (some c)).1.votes d
      = voteCountFor db.votes d := by
  have hstep : voteHandler db (some u) (some c)
      = ({ db with votes := db.votes ++ [⟨u, c⟩] }, voteOk200 c) := by
    simp [voteHandler, falsy_some_eq_false hu, falsy_some_eq_false hc, habs]
  refine ⟨by rw [hstep], by rw [hstep], ?_, ?_⟩
  · rw [hstep]
    simp [voteCountFor, List.filter_append]
  · intro d hd
    rw [hstep]
    simp [voteCountFor, List.filter_append]
    intro hcd
    exact absurd hcd.symm hd

/-!
## C1: the ledger never holds two rows for one identity
-/

theorem registerHandler_votes (db : DB) (n p : Option String) :
    ((registerHandler db n p).1).votes = db.votes := by
  unfold registerHandler
  split
  · rfl
  · dsimp only
    split <;> rfl

theorem loginHandler_fst (db : DB) (n p : Option String) :
    (loginHandler db n p).1 = db := by
  unfold loginHandler
  split
  · rfl
  · dsimp only
    split
    · rfl
    · split
      · split <;> rfl
      · rfl

theorem voteHandler_votes_cases (db : DB) (u c : Option String) :
    ((voteHandler db u c).1).votes = db.votes ∨
    ∃ uid cand, voteExists db.votes uid = false ∧
      ((voteHandler db u c).1).votes = db.votes ++ [⟨uid, cand⟩] := by
  unfold voteHandler
  split
  · left; rfl
  · dsimp only
    split
    · left; rfl
    · next hfalse =>
        right
        exact ⟨u.getD "", c.getD "", by simpa using hfalse, rfl⟩

theorem keyNodup_append (vs : List VoteRow) (u c : String)
    (h : keyNodup vs) (habs : voteExists vs u = false) :
    keyNodup (vs ++ [⟨u, c⟩]) := by
  have h0 : rowsFor vs u = 0 := (voteExists_eq_false_iff vs u).mp habs
  have hnotin : u ∉ vs.map VoteRow.user_id := by
    intro hmem
    obtain ⟨v, hv, hvu⟩ := List.mem_map.mp hmem
    have hvm : v ∈ votesWhere vs u :=
      List.mem_filter.mpr ⟨hv, by simp [hvu]⟩
    have : 0 < rowsFor vs u := List.length_pos_of_mem hvm
    omega
  unfold keyNodup at h ⊢
  rw [List.map_append]
  simp [List.nodup_append, h, hnotin]

theorem keyNodup_applyOp (db : DB) (op : Op) (h : keyNodup db.votes) :
    keyNodup (applyOp db op).votes := by
  cases op with
  | register n p =>
      show keyNodup ((registerHandler db n p).1).votes
      rw [registerHandler_votes]; exact h
  | login n p =>
      show keyNodup ((loginHandler db n p).1).votes
      rw [loginHandler_fst]; exact h
  | castVote u c =>
      show keyNodup ((voteHandler db u c).1).votes
      rcases voteHandler_votes_cases db u c with heq | ⟨uid, cand, habs, heq⟩
      · rw [heq]; exact h
      · rw [heq]; exact keyNodup_append db.votes uid cand h habs
  | tally => exact h

theorem keyNodup_runOps_aux (ops : List Op) :
    ∀ db : DB, keyNodup db.votes → keyNodup (ops.foldl applyOp db).votes := by
  induction ops with
  | nil => intro db h; exact h
  | cons op rest ih =>
      intro db h
      exact ih _ (keyNodup_applyOp db op h)

theorem keyNodup_stepWorld (w : World) (i : Nat) (h : keyNodup w.votes) :
    keyNodup (stepWorld w i).votes := by
  unfold stepWorld
  cases hc : w.calls[i]? with
  | none => exact h
  | some c =>
      show keyNodup (stepCall w.votes c).1
      unfold stepCall
      cases hph : c.phase with
      | start =>
          dsimp only
          repeat' split
          all_goals exact h
      | checked =>
          dsimp only
          split
          · exact h
          · next hfalse =>
              exact keyNodup_append w.votes c.uid c.cand h (by simpa using hfalse)
      | done r => exact h

theorem keyNodup_runSched_aux (sched : List Nat) :
    ∀ w : World, keyNodup w.votes → keyNodup (runSched w sched).votes := by
  induction sched with
  | nil => intro w h; exact h
  | cons i rest ih =>
      intro w h
      exact ih _ (keyNodup_stepWorld w i h)

/-- C1: starting from the empty ledger, any sequence of requests —
sequential requests of all four kinds, or any interleaving of concurrent
`/vote` requests — leaves the `votes` table with at most one row per voter
identity: the `user_id` column never acquires a duplicate. -/
theorem C1_at_most_one_vote_row_per_identity :
    (∀ ops : List Op, keyNodup (runOps ops).votes) ∧
    (∀ (uid : String) (cands : List String) (sched : List Nat),
      keyNodup (runSched (initialWorld uid [] cands) sched).votes) := by
  constructor
  · intro ops
    exact keyNodup_runOps_aux ops emptyDB (by simp [emptyDB, keyNodup])
  · intro uid cands sched
    exact keyNodup_runSched_aux sched (initialWorld uid [] cands)
      (by simp [initialWorld, keyNodup])

/-!
## C2: the interleaved exactly-once analysis
-/

theorem isEmpty_false_of_ne {s : String} (h : s ≠ "") : s.isEmpty = false := by
  rcases Bool.eq_false_or_eq_true s.isEmpty with hb | hb
  · exact absurd ((String.isEmpty_iff s).mp hb) h
  · exact hb

theorem voteExists_append_true (vs l : List VoteRow) (uid : String)
    (h : voteExists vs uid = true) : voteExists (vs ++ l) uid = true := by
  rw [voteExists_eq_true_iff] at h ⊢
  rw [rowsFor_append]
  omega

theorem mem_of_getElem?_some {α : Type} {l : List α} {i : Nat} {a : α}
    (h : l[i]? = some a) : a ∈ l := by
  obtain ⟨hi, rfl⟩ := List.getElem?_eq_some.mp h
  exact List.getElem_mem hi

theorem numSuccess_set (cs : List VoteCall) (i : Nat) (c c2 : VoteCall)
    (h : cs[i]? = some c) :
    numSuccess (cs.set i c2) + (if isSuccess c then 1 else 0)
      = numSuccess cs + (if isSuccess c2 then 1 else 0) := by
  induction cs generalizing i with
  | nil => simp at h
  | cons hd tl ih =>
      cases i with
      | zero =>
          rw [List.getElem?_cons_zero] at h
          injection h with h
          subst h
          simp only [List.set_cons_zero, numSuccess, List.filter_cons]
          cases h1 : isSuccess hd <;> cases h2 : isSuccess c2 <;>
            simp [h1, h2]
      | succ n =>
          rw [List.getElem?_cons_succ] at h
          have hrec := ih n h
          simp only [List.set_cons_succ, numSuccess, List.filter_cons] at hrec ⊢
          cases h1 : isSuccess hd <;> simp [h1] at hrec ⊢ <;> omega

theorem numSuccess_pos_of_mem (cs : List VoteCall) (c : VoteCall)
    (hm : c ∈ cs) (hs : isSuccess c = true) : 0 < numSuccess cs := by
  have : c ∈ cs.filter isSuccess := List.mem_filter.mpr ⟨hm, hs⟩
  exact List.length_pos_of_mem this

theorem stepWorld_calls_length (w : World) (i : Nat) :
    (stepWorld w i).calls.length = w.calls.length := by
  unfold stepWorld
  cases hc : w.calls[i]? with
  | none => rfl
  | some c => simp

theorem runSched_calls_length (sched : List Nat) :
    ∀ w : World, (runSched w sched).calls.length = w.calls.length := by
  induction sched with
  | nil => intro w; rfl
  | cons i rest ih =>
      intro w
      show (runSched (stepWorld w i) rest).calls.length = _
      rw [ih, stepWorld_calls_length]

theorem allDone_phase {cs : List VoteCall} (h : allDone cs = true)
    {c : VoteCall} (hm : c ∈ cs) : ∃ r, c.phase = Phase.done r := by
  have hx := List.all_eq_true.mp h c hm
  cases hph : c.phase with
  | start => rw [hph] at hx; simp at hx
  | checked => rw [hph] at hx; simp at hx
  | done r => exact ⟨r, rfl⟩

theorem voteInv_replace_no_insert (uid : String) (w : World) (i : Nat)
    (c c2 : VoteCall) (hc : w.calls[i]? = some c)
    (hinv : VoteInv uid w)
    (hpayu : c2.uid = c.uid) (hpayc : c2.cand = c.cand)
    (hns : isSuccess c = false) (hns2 : isSuccess c2 = false)
    (hdone2 : ∀ r, c2.phase = Phase.done r →
      (r = alreadyVoted409 ∨ r = voteFault500) ∧ voteExists w.votes uid = true) :
    VoteInv uid ⟨w.votes, w.calls.set i c2⟩ := by
  obtain ⟨huid, hpay, hcount, hle, hout⟩ := hinv
  have hcm : c ∈ w.calls := mem_of_getElem?_some hc
  refine ⟨huid, ?_, ?_, hle, ?_⟩
  · intro x hx
    rcases List.mem_or_eq_of_mem_set hx with hx | rfl
    · exact hpay x hx
    · obtain ⟨h1, h2⟩ := hpay c hcm
      exact ⟨hpayu.trans h1, by rw [hpayc]; exact h2⟩
  · have hset := numSuccess_set w.calls i c c2 hc
    rw [hns, hns2] at hset
    show rowsFor w.votes uid = numSuccess (w.calls.set i c2)
    omega
  · intro x hx r hr
    rcases List.mem_or_eq_of_mem_set hx with hx | rfl
    · exact hout x hx r hr
    · exact Or.inr (hdone2 r hr)

theorem voteInv_replace_insert (uid : String) (w : World) (i : Nat)
    (c : VoteCall) (hc : w.calls[i]? = some c)
    (hinv : VoteInv uid w)
    (hns : isSuccess c = false)
    (habs : voteExists w.votes c.uid = false) :
    VoteInv uid ⟨w.votes ++ [⟨c.uid, c.cand⟩],
      w.calls.set i { c with phase := Phase.done (voteOk200 c.cand) }⟩ := by
  obtain ⟨huid, hpay, hcount, hle, hout⟩ := hinv
  have hcm : c ∈ w.calls := mem_of_getElem?_some hc
  obtain ⟨hcu, hcc⟩ := hpay c hcm
  rw [hcu] at habs
  have h0 : rowsFor w.votes uid = 0 := (voteExists_eq_false_iff _ _).mp habs
  have hone : rowsFor (w.votes ++ [⟨c.uid, c.cand⟩]) uid = 1 := by
    rw [rowsFor_append, h0]
    simp [rowsFor, votesWhere, hcu]
  have hset := numSuccess_set w.calls i c
    { c with phase := Phase.done (voteOk200 c.cand) } hc
  rw [hns] at hset
  have hs2 : isSuccess { c with phase := Phase.done (voteOk200 c.cand) } = true := rfl
  rw [hs2] at hset
  simp at hset
  refine ⟨huid, ?_, ?_, ?_, ?_⟩
  · intro x hx
    rcases List.mem_or_eq_of_mem_set hx with hx | rfl
    · exact hpay x hx
    · exact ⟨hcu, hcc⟩
  · show rowsFor (w.votes ++ [⟨c.uid, c.cand⟩]) uid
        = numSuccess (w.calls.set i { c with phase := Phase.done (voteOk200 c.cand) })
    omega
  · rw [hone]
  · intro x hx r hr
    rcases List.mem_or_eq_of_mem_set hx with hx | rfl
    · rcases hout x hx r hr with h200 | ⟨hconf, hex⟩
      · exact Or.inl h200
      · exact Or.inr ⟨hconf, voteExists_append_true _ _ _ hex⟩
    · left
      injection hr with hr
      rw [← hr]

theorem stepCall_start_conflict (votes : List VoteRow) (c : VoteCall)
    (hph : c.phase = Phase.start) (hu : c.uid.isEmpty = false)
    (hcand : c.cand.isEmpty = false) (hex : voteExists votes c.uid = true) :
    stepCall votes c = (votes, { c with phase := Phase.done alreadyVoted409 }) := by
  simp [stepCall, hph, hu, hcand, hex]

theorem stepCall_start_pass (votes : List VoteRow) (c : VoteCall)
    (hph : c.phase = Phase.start) (hu : c.uid.isEmpty = false)
    (hcand : c.cand.isEmpty = false) (hex : voteExists votes c.uid = false) :
    stepCall votes c = (votes, { c with phase := Phase.checked }) := by
  simp [stepCall, hph, hu, hcand, hex]

theorem stepCall_checked_conflict (votes : List VoteRow) (c : VoteCall)
    (hph : c.phase = Phase.checked) (hex : voteExists votes c.uid = true) :
    stepCall votes c = (votes, { c with phase := Phase.done voteFault500 }) := by
  simp [stepCall, hph, hex]

theorem stepCall_checked_insert (votes : List VoteRow) (c : VoteCall)
    (hph : c.phase = Phase.checked) (hex : voteExists votes c.uid = false) :
    stepCall votes c = (votes ++ [⟨c.uid, c.cand⟩],
      { c with phase := Phase.done (voteOk200 c.cand) }) := by
  simp [stepCall, hph, hex]

theorem stepCall_done (votes : List VoteRow) (c : VoteCall) (r : Response)
    (hph : c.phase = Phase.done r) : stepCall votes c = (votes, c) := by
  simp [stepCall, hph]

theorem voteInv_step (uid : String) (w : World) (i : Nat)
    (h : VoteInv uid w) : VoteInv uid (stepWorld w i) := by
  unfold stepWorld
  cases hc : w.calls[i]? with
  | none => exact h
  | some c =>
    have hcm : c ∈ w.calls := mem_of_getElem?_some hc
    obtain ⟨hcu, hcc⟩ := h.2.1 c hcm
    have hcue : c.uid.isEmpty = false := by rw [hcu]; exact isEmpty_false_of_ne h.1
    have hcce : c.cand.isEmpty = false := isEmpty_false_of_ne hcc
    dsimp only
    cases hph : c.phase with
    | start =>
      have hnsc : isSuccess c = false := by simp [isSuccess, hph]
      cases hex : voteExists w.votes c.uid with
      | true =>
        rw [stepCall_start_conflict w.votes c hph hcue hcce hex]
        refine voteInv_replace_no_insert uid w i c _ hc h rfl rfl hnsc rfl ?_
        intro r hr
        injection hr with hr
        rw [hcu] at hex
        exact ⟨Or.inl hr.symm, hex⟩
      | false =>
        rw [stepCall_start_pass w.votes c hph hcue hcce hex]
        refine voteInv_replace_no_insert uid w i c _ hc h rfl rfl hnsc rfl ?_
        intro r hr
        exact absurd hr (by simp)
    | checked =>
      have hnsc : isSuccess c = false := by simp [isSuccess, hph]
      cases hex : voteExists w.votes c.uid with
      | true =>
        rw [stepCall_checked_conflict w.votes c hph hex]
        refine voteInv_replace_no_insert uid w i c _ hc h rfl rfl hnsc rfl ?_
        intro r hr
        injection hr with hr
        rw [hcu] at hex
        exact ⟨Or.inr hr.symm, hex⟩
      | false =>
        rw [stepCall_checked_insert w.votes c hph hex]
        exact voteInv_replace_insert uid w i c hc h hnsc hex
    | done r =>
      rw [stepCall_done w.votes c r hph]
      obtain ⟨huid, hpay, hcount, hle, hout⟩ := h
      have hset := numSuccess_set w.calls i c c hc
      refine ⟨huid, ?_, ?_, hle, ?_⟩
      · intro x hx
        rcases List.mem_or_eq_of_mem_set hx with hx | heq
        · exact hpay x hx
        · rw [heq]; exact hpay c hcm
      · show rowsFor w.votes uid = numSuccess (w.calls.set i c)
        omega
      · intro x hx rr hrr
        rcases List.mem_or_eq_of_mem_set hx with hx | heq
        · exact hout x hx rr hrr
        · rw [heq] at hrr ⊢
          exact hout c hcm rr hrr

theorem voteInv_initial (uid : String) (v0 : List VoteRow) (cands : List String)
    (huid : uid ≠ "") (hc : ∀ cd ∈ cands, cd ≠ "") (h0 : rowsFor v0 uid = 0) :
    VoteInv uid (initialWorld uid v0 cands) := by
  have hzero : ∀ l : List String,
      numSuccess (l.map (fun cd => (⟨uid, cd, Phase.start⟩ : VoteCall))) = 0 := by
    intro l
    induction l with
    | nil => rfl
    | cons hd tl ih => simp [numSuccess, List.filter_cons, isSuccess, ih]
  refine ⟨huid, ?_, ?_, ?_, ?_⟩
  · intro c hcm
    obtain ⟨cd, hcd, rfl⟩ := List.mem_map.mp hcm
    exact ⟨rfl, hc cd hcd⟩
  · show rowsFor v0 uid
        = numSuccess (cands.map (fun cd => (⟨uid, cd, Phase.start⟩ : VoteCall)))
    rw [h0, hzero]
  · show rowsFor v0 uid ≤ 1
    omega
  · intro c hcm r hr
    obtain ⟨cd, hcd, rfl⟩ := List.mem_map.mp hcm
    exact absurd hr (by simp)

theorem voteInv_runSched (uid : String) (sched : List Nat) :
    ∀ w : World, VoteInv uid w → VoteInv uid (runSched w sched) := by
  induction sched with
  | nil => intro w h; exact h
  | cons i rest ih =>
      intro w h
      exact ih _ (voteInv_step uid w i h)

/-- C2 counterexample: when two concurrent `/vote` requests for the same
voter both pass the already-voted check before either inserts (schedule
0,1,0,1), the loser's `INSERT` hits the primary key and the catch block
answers 500 — the storage-fault kind, not the 409 conflict the claim
requires every losing call to observe. -/
theorem C2_counterexample_loser_sees_500 :
    (runSched (initialWorld "V1" [] ["A", "B"]) [0, 1, 0, 1]).calls.map
        VoteCall.phase
      = [Phase.done (voteOk200 "A"), Phase.done voteFault500] ∧
    voteFault500 ≠ alreadyVoted409 ∧ voteFault500.status = 500 :=
  ⟨rfl, by decide, rfl⟩

/-- C2 amended: for N ≥ 1 concurrent `/vote` requests by one voter with no
prior ledger row, every complete interleaving ends with exactly one row for
that voter in the ledger and exactly one request succeeding; every other
request observes either the 409 already-voted conflict or, on losing the
check-then-insert race, the 500 storage-fault response from the caught
primary-key violation — never a duplicate row and never a lost vote. -/
theorem C2_amended_exactly_once_with_500 (uid : String) (v0 : List VoteRow)
    (cands : List String) (sched : List Nat)
    (huid : uid ≠ "") (hcands : ∀ cd ∈ cands, cd ≠ "") (hne : cands ≠ [])
    (h0 : rowsFor v0 uid = 0)
    (hdone : allDone (runSched (initialWorld uid v0 cands) sched).calls = true) :
    rowsFor (runSched (initialWorld uid v0 cands) sched).votes uid = 1 ∧
    numSuccess (runSched (initialWorld uid v0 cands) sched).calls = 1 ∧
    ∀ c ∈ (runSched (initialWorld uid v0 cands) sched).calls,
      c.phase = Phase.done (voteOk200 c.cand) ∨
      c.phase = Phase.done alreadyVoted409 ∨
      c.phase = Phase.done voteFault500 := by
  have hinv := voteInv_runSched uid sched _
    (voteInv_initial uid v0 cands huid hcands h0)
  obtain ⟨_, hpay, hcount, hle, hout⟩ := hinv
  have hlen : (runSched (initialWorld uid v0 cands) sched).calls.length
      = cands.length := by
    rw [runSched_calls_length]
    simp [initialWorld]
  have hkpos : 0 < (runSched (initialWorld uid v0 cands) sched).calls.length := by
    rw [hlen]
    exact List.length_pos.mpr hne
  obtain ⟨c0, hc0⟩ :=
    List.exists_mem_of_ne_nil _ (List.length_pos.mp hkpos)
  have hpos : rowsFor (runSched (initialWorld uid v0 cands) sched).votes uid ≠ 0 := by
    intro hz
    obtain ⟨r, hr⟩ := allDone_phase hdone hc0
    rcases hout c0 hc0 r hr with h200 | ⟨_, hex⟩
    · have hs : isSuccess c0 = true := by simp [isSuccess, hr, h200, voteOk200]
      have := numSuccess_pos_of_mem _ _ hc0 hs
      omega
    · rw [voteExists_eq_true_iff] at hex
      exact hex hz
  refine ⟨by omega, by omega, ?_⟩
  intro c hcmem
  obtain ⟨r, hr⟩ := allDone_phase hdone hcmem
  rcases hout c hcmem r hr with h200 | ⟨h45, _⟩
  · left; rw [hr, h200]
  · rcases h45 with h9 | h5
    · right; left; rw [hr, h9]
    · right; right; rw [hr, h5]

/-- C2 amended witness: the racing schedule 0,1,0,1 for two requests. -/
theorem C2_amended_witness :
    rowsFor (runSched (initialWorld "V1" [] ["A", "B"]) [0, 1, 0, 1]).votes "V1" = 1 ∧
    numSuccess (runSched (initialWorld "V1" [] ["A", "B"]) [0, 1, 0, 1]).calls = 1 ∧
    ∀ c ∈ (runSched (initialWorld "V1" [] ["A", "B"]) [0, 1, 0, 1]).calls,
      c.phase = Phase.done (voteOk200 c.cand) ∨
      c.phase = Phase.done alreadyVoted409 ∨
      c.phase = Phase.done voteFault500 :=
  C2_amended_exactly_once_with_500 "V1" [] ["A", "B"] [0, 1, 0, 1]
    (by decide) (by decide) (by decide) (by decide) (by decide)

/-- C10 witness at a concrete database. -/
theorem C10_success_witness :
    (voteHandler ⟨[], [⟨"V2", "B"⟩]⟩ (some "V1") (some "A")).2 = voteOk200 "A" ∧
    (voteHandler ⟨[], [⟨"V2", "B"⟩]⟩ (some "V1") (some "A")).1.votes
      = [⟨"V2", "B"⟩] ++ [⟨"V1", "A"⟩] ∧
    voteCountFor (voteHandler ⟨[], [⟨"V2", "B"⟩]⟩ (some "V1") (some "A")).1.votes "A"
      = voteCountFor [⟨"V2", "B"⟩] "A" + 1 ∧
    ∀ d, d ≠ "A" →
      voteCountFor (voteHandler ⟨[], [⟨"V2", "B"⟩]⟩ (some "V1") (some "A")).1.votes d
        = voteCountFor [⟨"V2", "B"⟩] d :=
  C10_success_increments_tally ⟨[], [⟨"V2", "B"⟩]⟩ "V1" "A"
    (by decide) (by decide) (by decide)

/-!
## C7: tally ordering
-/

/-- C7 counterexample: the results query orders only by `vote_count DESC`
with no secondary key, so for the ledger {A, A, B, C, A} the output with C
before B is just as admissible as the one with B before C — the claimed
deterministic label tie-break is not guaranteed by the query. -/
theorem C7_counterexample_tie_order_not_pinned :
    resultsAdmissible demoVotes [("A", 3), ("C", 1), ("B", 1)] ∧
    [(("A" : String), 3), (("C" : String), 1), (("B" : String), 1)]
      ≠ [(("A" : String), 3), (("B" : String), 1), (("C" : String), 1)] := by
  constructor
  · exact ⟨by decide, by decide, by decide⟩
  · decide

/-- C7 amended: the results of the query are sorted by count descending
with correct per-candidate counts, but the relative order of tied
candidates is unspecified; for the ledger {A, A, B, C, A} every admissible
output is [(A,3),(B,1),(C,1)] or [(A,3),(C,1),(B,1)] — B before C is not
guaranteed. -/
theorem C7_amended_tally_order (out : List (String × Nat))
    (h : resultsAdmissible demoVotes out) :
    out = [("A", 3), ("B", 1), ("C", 1)] ∨
    out = [("A", 3), ("C", 1), ("B", 1)] := by
  obtain ⟨hperm, hcnt, hsort⟩ := h
  have hcands : candidatesOf demoVotes = ["B", "C", "A"] := by decide
  rw [hcands] at hperm
  have eA : voteCountFor demoVotes "A" = 3 := by decide
  have eB : voteCountFor demoVotes "B" = 1 := by decide
  have eC : voteCountFor demoVotes "C" = 1 := by decide
  have hlen3 : out.length = 3 := by
    have hl := hperm.length_eq
    rw [List.length_map] at hl
    simpa using hl
  rcases out with _ | ⟨⟨a, x⟩, out⟩
  · simp at hlen3
  rcases out with _ | ⟨⟨b, y⟩, out⟩
  · simp at hlen3
  rcases out with _ | ⟨⟨c, z⟩, out⟩
  · simp at hlen3
  rcases out with _ | ⟨p4, out⟩
  swap
  · simp at hlen3
  simp only [List.map_cons, List.map_nil] at hperm
  have hxa : x = voteCountFor demoVotes a := hcnt (a, x) (by simp)
  have hyb : y = voteCountFor demoVotes b := hcnt (b, y) (by simp)
  have hzc : z = voteCountFor demoVotes c := hcnt (c, z) (by simp)
  rw [List.sorted_cons, List.sorted_cons] at hsort
  obtain ⟨hs1, hs2, _⟩ := hsort
  have hyx : y ≤ x := by simpa using hs1 (b, y) (by simp)
  have hzx : z ≤ x := by simpa using hs1 (c, z) (by simp)
  have hzy : z ≤ y := by simpa using hs2 (c, z) (by simp)
  have ha : a = "B" ∨ a = "C" ∨ a = "A" := by
    simpa using hperm.mem_iff.mp (show a ∈ [a, b, c] by simp)
  have hb : b = "B" ∨ b = "C" ∨ b = "A" := by
    simpa using hperm.mem_iff.mp (show b ∈ [a, b, c] by simp)
  have hcc : c = "B" ∨ c = "C" ∨ c = "A" := by
    simpa using hperm.mem_iff.mp (show c ∈ [a, b, c] by simp)
  rcases ha with rfl | rfl | rfl <;> rcases hb with rfl | rfl | rfl <;>
    rcases hcc with rfl | rfl | rfl <;>
      first
        | exact absurd hperm (by decide)
        | (simp only [eA, eB, eC] at hxa hyb hzc
           subst hxa
           subst hyb
           subst hzc
           first
             | (exfalso; omega)
             | (left; rfl)
             | (right; rfl))

/-- C7 amended witness at the admissible output with B before C. -/
theorem C7_amended_tally_witness :
    [(("A" : String), (3 : Nat)), ("B", 1), ("C", 1)]
        = [("A", 3), ("B", 1), ("C", 1)] ∨
    [(("A" : String), (3 : Nat)), ("B", 1), ("C", 1)]
        = [("A", 3), ("C", 1), ("B", 1)] :=
  C7_amended_tally_order [("A", 3), ("B", 1), ("C", 1)]
    ⟨by decide, by decide, by decide⟩

end EVS
